import Mathlib

/-!
Shallow embedding of the `ring` Go library (LED-ring layer compositor):
`layer.go`, `ring.go` and the color-math file (`serialize`, `blendOver`,
`blendLerp`).

Modelling conventions:
* Go `uint32` arithmetic is `Nat` arithmetic reduced `% 4294967296` exactly
  where the machine operation can wrap; `uint8(x)` conversion is `% 256`.
* A Go `color.Color` is represented by the quadruple its `RGBA()` method
  returns: four alpha-premultiplied 16-bit values.  This is the only way the
  library ever inspects a color.
* A Go `*color.RGBA` (the concrete 8-bit struct produced by `blendOver` and
  `blendLerp`) is a quadruple of 8-bit values; its `RGBA()` method expands
  each channel `v` to `v*0x101` (Go computes `r |= r << 8`).
* `float64` angle arithmetic is modelled exactly: angles are given in units
  of π radians as rationals (`q : ℚ` stands for the angle `q·π`), so the
  constant `pixArc = 2π/resolution` becomes the rational `2/resolution` and
  every quotient `angle / pixArc` is exact rational arithmetic.  The fraction
  `l` fed to `blendLerp` is likewise a rational; Go's `uint32(l * 0xFFFF)`
  truncation is `Int.toNat ⌊l * 65535⌋`.
* Go's `%` on `int` is the truncated remainder `Int.tmod`; slice indexing
  out of range (a runtime bounds failure) is modelled by `Option`.
-/

/-- The uint32 modulus `2^32`. -/
def U32MOD : ℕ := 4294967296

/-- Go `uint32` subtraction `x - y` for operands already reduced below
`2^32`: wraps modulo `2^32`. -/
def u32sub (x y : ℕ) : ℕ := (x + (U32MOD - y % U32MOD)) % U32MOD

/-- A Go `color.Color`, represented by the four alpha-premultiplied 16-bit
channel values its `RGBA()` method returns. -/
structure GoColor where
  r : ℕ
  g : ℕ
  b : ℕ
  a : ℕ
deriving DecidableEq, Repr

/-- A Go `color.RGBA` value: 8-bit channels, alpha-premultiplied. -/
structure RGBA8 where
  r : ℕ
  g : ℕ
  b : ℕ
  a : ℕ
deriving DecidableEq, Repr

/-- The `RGBA()` method of `color.RGBA`: each 8-bit channel `v` expands to
the 16-bit value `v | v << 8 = v * 0x101`. -/
def RGBA8.toGo (c : RGBA8) : GoColor :=
  ⟨c.r * 257, c.g * 257, c.b * 257, c.a * 257⟩

/-- `color.Transparent.RGBA() = (0, 0, 0, 0)`. -/
def goTransparent : GoColor := ⟨0, 0, 0, 0⟩

/-- `serialize` (color file): packs a color into `0x00RRGGBB`,
`((r>>8)<<16) | ((g>>8)<<8) | (b>>8)` on the 16-bit `RGBA()` channels;
alpha is never read. -/
def serialize (c : GoColor) : ℕ :=
  (((c.r >>> 8) <<< 16) ||| ((c.g >>> 8) <<< 8)) ||| (c.b >>> 8)

/-- The per-channel closure `over` inside `blendOver`:
`uint8((a + b*delta/0xFFFF) >> 8)` in `uint32` arithmetic. -/
def chOver (a b delta : ℕ) : ℕ :=
  (((a + b * delta % U32MOD / 65535) % U32MOD) >>> 8) % 256

/-- One iteration of the `blendOver` loop: blend the next color `c` over the
accumulator `blend` (read back through `blend.RGBA()`). -/
def overStep (blend : RGBA8) (c : GoColor) : RGBA8 :=
  let bg := blend.toGo
  let delta := u32sub 65535 c.a
  ⟨chOver c.r bg.r delta, chOver c.g bg.g delta,
   chOver c.b bg.b delta, chOver c.a bg.a delta⟩

/-- `blendOver` (color file): folds the over operator across the colors,
first color bottommost, starting from `color.RGBA{0,0,0,0}`. -/
def blendOver (cs : List GoColor) : RGBA8 :=
  cs.foldl overStep ⟨0, 0, 0, 0⟩

/-- The per-channel closure `lerp` inside `blendLerp`:
`uint8((a - (a-b)*l/0xFFFF) >> 8)` in `uint32` arithmetic (note the
subtractions wrap). -/
def chLerp (a b l : ℕ) : ℕ :=
  ((u32sub a (u32sub a b * l % U32MOD / 65535)) >>> 8) % 256

/-- Go `uint32(l * 0xFFFF)` for the rational fraction `l`: truncation of the
real product, i.e. `(⌊l * 65535⌋).toNat` (negative values clamp at zero; the
library only ever passes `l ∈ [0,1)`). -/
def lerpAmount (l : ℚ) : ℕ := (Rat.floor (l * 65535)).toNat

theorem ratFloor_eq_intFloor (q : ℚ) : Rat.floor q = ⌊q⌋ := by
  rw [Rat.floor_def, Rat.floor_def']

theorem lerpAmount_eq_floor (l : ℚ) : lerpAmount l = (⌊l * 65535⌋).toNat := by
  rw [lerpAmount, ratFloor_eq_intFloor]

/-- The body of `blendLerp` after the closure argument `l16 := uint32(l * 0xFFFF)`
has been computed. -/
def blendLerp16 (a b : GoColor) (l16 : ℕ) : RGBA8 :=
  ⟨chLerp a.r b.r l16, chLerp a.g b.g l16,
   chLerp a.b b.b l16, chLerp a.a b.a l16⟩

/-- `blendLerp` (color file): linear interpolation from `a` (at `l = 0`) to
`b` (at `l = 1`) on each 16-bit channel, truncated to an 8-bit
`color.RGBA`. -/
def blendLerp (a b : GoColor) (l : ℚ) : RGBA8 :=
  blendLerp16 a b (lerpAmount l)

/-- `mod` (layer.go): Go `%` is the truncated remainder, then negative
results are shifted into range by adding `n`. -/
def mod (p n : ℤ) : ℤ :=
  let r := Int.tmod p n
  if r < 0 then r + n else r

theorem tmod_neg_left (m n : ℤ) : Int.tmod (-m) n = -Int.tmod m n := by
  rw [Int.tmod_def, Int.tmod_def, Int.neg_tdiv]; ring

/-- For a positive modulus Go's `mod` agrees with Euclidean remainder. -/
theorem mod_eq_emod (p n : ℤ) (hn : 0 < n) : mod p n = p % n := by
  have hub : Int.tmod p n < n := Int.tmod_lt_of_pos p hn
  have hlb : -n < Int.tmod p n := by
    rcases Int.le_or_lt 0 p with hp | hp
    · have := Int.tmod_nonneg n hp
      omega
    · have h1 : Int.tmod p n = -Int.tmod (-p) n := by
        simpa using tmod_neg_left (-p) n
      have h2 : Int.tmod (-p) n < n := Int.tmod_lt_of_pos (-p) hn
      omega
  have hdef : Int.tmod p n + n * Int.tdiv p n = p := Int.tmod_add_tdiv p n
  have hcong : p % n = (mod p n) % n := by
    by_cases h : Int.tmod p n < 0
    · simp only [mod, h, if_pos]
      have he : p % n = (Int.tmod p n + n + n * (Int.tdiv p n - 1)) % n := by
        congr 1; ring_nf; omega
      rw [he, Int.add_mul_emod_self_left]
    · simp only [mod, h, if_neg, ite_false]
      have he : p % n = (Int.tmod p n + n * Int.tdiv p n) % n := by rw [hdef]
      rw [he, Int.add_mul_emod_self_left]
  have hb1 : 0 ≤ mod p n := by
    by_cases h : Int.tmod p n < 0 <;> simp only [mod, h, if_pos, ite_false, if_neg] <;> omega
  have hb2 : mod p n < n := by
    by_cases h : Int.tmod p n < 0 <;> simp only [mod, h, if_pos, ite_false, if_neg] <;> omega
  rw [hcong, Int.emod_eq_of_lt hb1 hb2]

/-- `mod` sends any index into `[0, n)` for positive `n`. -/
theorem mod_bounds (p n : ℤ) (hn : 0 < n) : 0 ≤ mod p n ∧ mod p n < n := by
  rw [mod_eq_emod p n hn]
  exact ⟨Int.emod_nonneg p (ne_of_gt hn), Int.emod_lt_of_pos p hn⟩

/-! ## Layer (layer.go) -/

/-- `ContentTile = 0` (iota). -/
def ContentTile : ℕ := 0
/-- `ContentCrop = 1`. -/
def ContentCrop : ℕ := 1
/-- `ContentScale = 2`. -/
def ContentScale : ℕ := 2

/-- `LayerOptions`: the content mode is a `uint8`, so it is an arbitrary
natural below 256, not only the three declared constants. -/
structure LayerOptions where
  resolution : ℕ
  contentMode : ℕ
deriving DecidableEq, Repr

/-- `Layer` (layer.go).  `pixArc` is stored in units of π radians
(`2π/resolution` becomes `2/resolution`), `rotFloat` is the fractional and
`rotInt` the integer part of `rotation / pixArc`. -/
structure Layer where
  pixels : List GoColor
  pixArc : ℚ
  rotFloat : ℚ
  rotInt : ℤ
  opt : LayerOptions
  buffer : List RGBA8
deriving DecidableEq, Repr

namespace Layer

/-- `pixelRaw`: `l.pixels[mod(i, l.opt.Resolution)]`. -/
def pixelRaw (l : Layer) (i : ℤ) : GoColor :=
  l.pixels.getD (mod i l.opt.resolution).toNat goTransparent

/-- `pixelRotated`: shift by the integer rotation part, blend adjacent raw
pixels by the fractional part. -/
def pixelRotated (l : Layer) (i : ℤ) : RGBA8 :=
  blendLerp (l.pixelRaw (i + l.rotInt)) (l.pixelRaw (i + l.rotInt + 1)) l.rotFloat

/-- `update`: recompute the whole sampled buffer from `pixels` and the
rotation state; runs at the end of every mutation. -/
def update (l : Layer) : Layer :=
  { l with buffer := (List.range l.pixels.length).map fun (i : ℕ) => l.pixelRotated (i : ℤ) }

/-- `Pixel`: `l.buffer[mod(i, l.opt.Resolution)]` — the public sampled read,
wrapping any integer index. -/
def Pixel (l : Layer) (i : ℤ) : RGBA8 :=
  l.buffer.getD (mod i l.opt.resolution).toNat ⟨0, 0, 0, 0⟩

/-- `SetAll`: write `c` to every pixel, then `update`. -/
def SetAll (l : Layer) (c : GoColor) : Layer :=
  update { l with pixels := l.pixels.map fun _ => c }

/-- `SetPixel`: `l.pixels[i] = c` — a direct slice store with no modulo;
an index outside `[0, len)` is a runtime bounds failure, modelled as
`none`. -/
def SetPixel (l : Layer) (i : ℤ) (c : GoColor) : Option Layer :=
  if 0 ≤ i ∧ i.toNat < l.pixels.length then
    some (update { l with pixels := l.pixels.set i.toNat c })
  else
    none

/-- `Rotate`: decompose `angle / pixArc` into floor and fractional part
(`angle` in units of π radians), then `update`. -/
def Rotate (l : Layer) (angle : ℚ) : Layer :=
  let rotArc := angle / l.pixArc
  let rotInt := ⌊rotArc⌋
  update { l with rotFloat := rotArc - rotInt, rotInt := rotInt }

end Layer

/-- `NewLayer`: fails on zero resolution; pixels start fully transparent
(`make` fills with nil, `SetAll(color.Transparent)` overwrites every entry
before any read), `pixArc = 2π/resolution`, then the buffer is computed. -/
def NewLayer (options : LayerOptions) : Option Layer :=
  if options.resolution = 0 then none
  else
    let l : Layer :=
      { pixels := List.replicate options.resolution goTransparent
        pixArc := 2 / options.resolution
        rotFloat := 0
        rotInt := 0
        opt := options
        buffer := List.replicate options.resolution ⟨0, 0, 0, 0⟩ }
    some (Layer.update (l.SetAll goTransparent))

/-! Sanity checks: the repository's own test vectors for the color math. -/

example : serialize ⟨0x1616, 0x1616, 0x1616, 0xFFFF⟩ = 0x161616 := by decide
example : serialize ⟨0x3232, 0x3232, 0x3232, 0x3232⟩ = 0x323232 := by decide
example : serialize ⟨0x3214, 0x1234, 0x00FF, 0xFFFF⟩ = 0x321200 := by decide
example : serialize ⟨0x1010, 0x1010, 0x1010, 0xFFFF⟩ = 0x101010 := by decide

example : blendOver [⟨0x1515, 0x1616, 0x1717, 0x1818⟩] = ⟨0x15, 0x16, 0x17, 0x18⟩ := by decide
example :
    blendOver [⟨0, 0, 0, 0xFFFF⟩, ⟨0xFFFF, 0xFFFF, 0xFFFF, 0xFFFF⟩] =
      ⟨0xFF, 0xFF, 0xFF, 0xFF⟩ := by decide
example :
    blendOver [⟨0xFFFF, 0xFFFF, 0xFFFF, 0xFFFF⟩, ⟨0, 0, 0, 0xFFFF⟩] =
      ⟨0, 0, 0, 0xFF⟩ := by decide
example :
    blendOver [⟨0, 0x8080, 0, 0xFFFF⟩, ⟨20769, 0, 0, 41377⟩] =
      ⟨0x51, 0x2F, 0x00, 0xFF⟩ := by decide

theorem lerpAmount_zero : lerpAmount 0 = 0 := by
  rw [lerpAmount_eq_floor]; norm_num

theorem lerpAmount_one : lerpAmount 1 = 65535 := by
  have h : (⌊(1 : ℚ) * 65535⌋ : ℤ) = 65535 := by norm_num
  rw [lerpAmount_eq_floor, h]; rfl

theorem lerpAmount_half : lerpAmount (1/2) = 32767 := by
  have h : (⌊(1/2 : ℚ) * 65535⌋ : ℤ) = 32767 := by norm_num
  rw [lerpAmount_eq_floor, h]; rfl

theorem lerpAmount_threeQuarter : lerpAmount (3/4) = 49151 := by
  have h : (⌊(3/4 : ℚ) * 65535⌋ : ℤ) = 49151 := by norm_num
  rw [lerpAmount_eq_floor, h]; rfl

example :
    blendLerp (RGBA8.toGo ⟨128, 128, 0, 128⟩) (RGBA8.toGo ⟨0, 255, 255, 255⟩) 0 =
      ⟨128, 128, 0, 128⟩ := by
  rw [blendLerp, lerpAmount_zero]; decide
example :
    blendLerp (RGBA8.toGo ⟨128, 128, 0, 128⟩) (RGBA8.toGo ⟨0, 255, 255, 255⟩) 1 =
      ⟨0, 255, 255, 255⟩ := by
  rw [blendLerp, lerpAmount_one]; decide
example :
    blendLerp (RGBA8.toGo ⟨128, 128, 0, 128⟩) (RGBA8.toGo ⟨0, 255, 255, 255⟩) (1/2) =
      ⟨64, 192, 127, 192⟩ := by
  rw [blendLerp, lerpAmount_half]; decide
example :
    blendLerp (RGBA8.toGo ⟨128, 128, 0, 128⟩) (RGBA8.toGo ⟨0, 255, 255, 255⟩) (3/4) =
      ⟨32, 224, 191, 224⟩ := by
  rw [blendLerp, lerpAmount_threeQuarter]; decide

/-! ## Ring (ring.go)

The ws2811 device collaborator is external to the repository; per the
external-interface contract it exposes a mutable packed-`uint32` buffer of
`ledCount` entries and a flush that either succeeds or reports an I/O
failure.  It is modelled as that buffer plus a flag saying whether a flush
attempt fails. -/

/-- The device's flush failure (`DeviceIOError` of the contract). -/
inductive DeviceError where
  | io : DeviceError
deriving DecidableEq, Repr

/-- The external ws2811 device: its packed led buffer (one `uint32` per
LED) and whether `device.Render()` (the flush) reports an error. -/
structure Device where
  leds : List ℕ
  failFlush : Bool
deriving DecidableEq, Repr

/-- `device.Render()`: flush to hardware, reporting `DeviceIOError` when it
fails.  The buffer itself is unchanged by a flush. -/
def deviceRender (d : Device) : Option DeviceError :=
  if d.failFlush then some DeviceError.io else none

/-- The `Ring` struct of ring.go (named `LedRing` here because Mathlib
already has a `Ring` class).  `ledArc` is stored in units of π radians
(`2π/LedCount` becomes `2/LedCount`); `offset` is `rotation / ledArc`,
`ledOffset` the integer variant computed by `Ring.Offset`. -/
structure LedRing where
  device : Device
  layers : List Layer
  ledArc : ℚ
  ledOffset : ℤ
  offset : ℚ
  ledCount : ℕ
deriving DecidableEq, Repr

/-- `scale` (ring.go): `v * tmax / fmax` in Go `int` arithmetic; all uses
have nonnegative operands, where Go division agrees with `Nat` division. -/
def scale (v fmax tmax : ℕ) : ℕ := v * tmax / fmax

/-- `lerp` (ring.go): blend the composited colors at wrapped positions `i`
and `i+1`. -/
def lerp (i : ℤ) (pixels : List RGBA8) (alpha : ℚ) : RGBA8 :=
  blendLerp (pixels.getD (mod i pixels.length).toNat ⟨0, 0, 0, 0⟩).toGo
    (pixels.getD (mod (i + 1) pixels.length).toNat ⟨0, 0, 0, 0⟩).toGo alpha

namespace LedRing

/-- `Size`: the configured LED count. -/
def Size (r : LedRing) : ℕ := r.ledCount

/-- `AddLayer`: append on top of the z-order. -/
def AddLayer (r : LedRing) (l : Layer) : LedRing :=
  { r with layers := r.layers ++ [l] }

/-- `Offset` (ring.go): the integer `ledOffset` rounds `rotation/ledArc`
with `Ceil` for negative angles and `Floor` otherwise; the continuous
`offset` keeps the exact quotient. -/
def Offset (r : LedRing) (rotation : ℚ) : LedRing :=
  { r with
    ledOffset := if rotation < 0 then ⌈rotation / r.ledArc⌉ else ⌊rotation / r.ledArc⌋
    offset := rotation / r.ledArc }

/-- One assignment of `pixel[j]` inside `Render`'s per-position loop: the
`switch` on the layer's content mode.  A mode outside the three declared
constants matches no case, so the slot keeps its previous value `prev`. -/
def contribSlot (n : ℕ) (i : ℕ) (l : Layer) (prev : Option GoColor) : Option GoColor :=
  if l.opt.contentMode = ContentTile then some (l.Pixel i).toGo
  else if l.opt.contentMode = ContentCrop then
    if i < l.opt.resolution then some (l.Pixel i).toGo else some goTransparent
  else if l.opt.contentMode = ContentScale then
    some (l.Pixel (scale i n l.opt.resolution)).toGo
  else prev

/-- The state of the `pixel` scratch slice after the first `i` positions of
`Render`'s outer loop: it starts as `len(layers)` nil colors and each
position rewrites slot `j` through layer `j`'s content mode. -/
def slotsAt (r : LedRing) : ℕ → List (Option GoColor)
  | 0 => List.replicate r.layers.length none
  | i + 1 => List.zipWith (fun l p => contribSlot r.ledCount i l p) r.layers (slotsAt r i)

/-- `pixels[i] = blendOver(pixel...)`: composite the slot colors at position
`i`.  A slot still holding nil (a layer whose content mode matched no case)
makes `blendOver` dereference a nil interface — a runtime failure, `none`. -/
def compositeAt (r : LedRing) (i : ℕ) : Option RGBA8 :=
  ((slotsAt r (i + 1)).mapM id).map blendOver

/-- `Render` (ring.go): composite every position, apply the global-offset
decomposition `rotInt = Floor(offset)`, `rotFloat = offset - rotInt` as a
second interpolation pass, serialize into the device buffer, then flush.
The outer result is `none` on a nil-color runtime failure; otherwise the
pair of the updated ring and the error `Render` returns to its caller
(the flush error, exactly when the device fails). -/
def Render (r : LedRing) : Option (LedRing × Option DeviceError) :=
  match (List.range r.ledCount).mapM (fun i => compositeAt r i) with
  | none => none
  | some pixels =>
    let rotInt : ℤ := ⌊r.offset⌋
    let rotFloat : ℚ := r.offset - rotInt
    let leds := (List.range r.ledCount).map fun (i : ℕ) =>
      serialize (lerp (rotInt + (i : ℤ)) pixels rotFloat).toGo
    let r' := { r with device := { r.device with leds := leds } }
    some (r', deviceRender r'.device)

/-- `TurnOff` (ring.go): write `0` to every device led, then flush.  The Go
function returns nothing and the statement `r.device.Render()` discards the
flush result, so the error surfaced to the caller (second component) is
always `none`. -/
def TurnOff (r : LedRing) : LedRing × Option DeviceError :=
  let d := { r.device with leds := r.device.leds.map fun _ => 0 }
  ({ r with device := d }, none)

/-- `Close` (ring.go): `TurnOff` then `Fini`; returns nothing, so no error
is surfaced. -/
def Close (r : LedRing) : LedRing × Option DeviceError :=
  ((r.TurnOff).1, none)

end LedRing

/-! ## Claim theorems -/

theorem shiftLeft_lor_eq_add (x y k : ℕ) (hy : y < 2 ^ k) :
    (x <<< k) ||| y = 2 ^ k * x + y := by
  apply Nat.eq_of_testBit_eq
  intro j
  rw [Nat.testBit_lor, Nat.testBit_mul_pow_two_add x hy j, Nat.testBit_shiftLeft]
  by_cases h : j < k
  · simp [h, Nat.not_le.mpr h]
  · have hb : y.testBit j = false :=
      Nat.testBit_lt_two_pow
        (lt_of_lt_of_le hy (Nat.pow_le_pow_right (by norm_num) (Nat.le_of_not_lt h)))
    simp [h, Nat.le_of_not_lt h, hb]

/-- C6: `serialize` packs `((R>>8)<<16) | ((G>>8)<<8) | (B>>8)` of the
16-bit channel expansion — equivalently the place-value sum
`(R>>8)·2^16 + (G>>8)·2^8 + (B>>8)` — and the alpha channel has no effect
on the output bits: colors whose expansions differ only in alpha
serialize identically. -/
theorem serialize_packs_rgb_and_ignores_alpha (c c' : GoColor)
    (hr : c.r < 65536) (hg : c.g < 65536) (hb : c.b < 65536) :
    serialize c = (c.r >>> 8) * 65536 + (c.g >>> 8) * 256 + (c.b >>> 8) ∧
      (c'.r = c.r → c'.g = c.g → c'.b = c.b → serialize c' = serialize c) := by
  constructor
  · have hr8 : c.r >>> 8 < 256 := by
      rw [Nat.shiftRight_eq_div_pow]; omega
    have hg8 : c.g >>> 8 < 256 := by
      rw [Nat.shiftRight_eq_div_pow]; omega
    have hb8 : c.b >>> 8 < 256 := by
      rw [Nat.shiftRight_eq_div_pow]; omega
    unfold serialize
    have h1 : ((c.r >>> 8) <<< 16) ||| ((c.g >>> 8) <<< 8) =
        2 ^ 16 * (c.r >>> 8) + 2 ^ 8 * (c.g >>> 8) := by
      have : (c.g >>> 8) <<< 8 < 2 ^ 16 := by
        rw [Nat.shiftLeft_eq]; omega
      rw [shiftLeft_lor_eq_add _ _ _ this, Nat.shiftLeft_eq]
      ring
    rw [h1]
    have h2 : 2 ^ 16 * (c.r >>> 8) + 2 ^ 8 * (c.g >>> 8) =
        (2 ^ 8 * (c.r >>> 8) + (c.g >>> 8)) <<< 8 := by
      rw [Nat.shiftLeft_eq]; ring
    rw [h2, shiftLeft_lor_eq_add _ _ _ (by omega : c.b >>> 8 < 2 ^ 8)]
    ring
  · intro h1 h2 h3
    unfold serialize
    rw [h1, h2, h3]

/-- Witness for C6 at a concrete input: the `0x16` gray test vector, and a
second color differing only in alpha. -/
theorem serialize_packs_rgb_and_ignores_alpha_witness :
    serialize ⟨0x1616, 0x1616, 0x1616, 0xFFFF⟩ =
        (0x1616 >>> 8) * 65536 + (0x1616 >>> 8) * 256 + (0x1616 >>> 8) ∧
      serialize ⟨0x1616, 0x1616, 0x1616, 0x0000⟩ =
        serialize ⟨0x1616, 0x1616, 0x1616, 0xFFFF⟩ := by
  have h := serialize_packs_rgb_and_ignores_alpha
    ⟨0x1616, 0x1616, 0x1616, 0xFFFF⟩ ⟨0x1616, 0x1616, 0x1616, 0x0000⟩
    (by decide) (by decide) (by decide)
  exact ⟨h.1, h.2 rfl rfl rfl⟩

theorem chOver_zero_bg (v delta : ℕ) (hv : v < 256) : chOver (v * 257) 0 delta = v := by
  simp only [chOver, U32MOD, Nat.zero_mul, Nat.zero_div, Nat.zero_mod, Nat.add_zero,
    Nat.shiftRight_eq_div_pow]
  norm_num
  have h : v * 257 % 4294967296 = v * 257 := Nat.mod_eq_of_lt (by omega)
  have h2 : v * 257 / 256 = v := by omega
  rw [h, h2, Nat.mod_eq_of_lt hv]

/-- C7: compositing a single color returns it unchanged; opaque white over
opaque black is white, opaque black over opaque white is black — the first
element is bottommost. -/
theorem blendOver_single_and_order (c : RGBA8)
    (hr : c.r < 256) (hg : c.g < 256) (hb : c.b < 256) (ha : c.a < 256) :
    blendOver [c.toGo] = c ∧
      blendOver [⟨0, 0, 0, 0xFFFF⟩, ⟨0xFFFF, 0xFFFF, 0xFFFF, 0xFFFF⟩] =
        ⟨0xFF, 0xFF, 0xFF, 0xFF⟩ ∧
      blendOver [⟨0xFFFF, 0xFFFF, 0xFFFF, 0xFFFF⟩, ⟨0, 0, 0, 0xFFFF⟩] =
        ⟨0, 0, 0, 0xFF⟩ := by
  refine ⟨?_, by decide, by decide⟩
  obtain ⟨r, g, b, a⟩ := c
  simp only [blendOver, List.foldl, overStep, RGBA8.toGo]
  simp only [Nat.zero_mul]
  rw [chOver_zero_bg r _ hr, chOver_zero_bg g _ hg, chOver_zero_bg b _ hb,
    chOver_zero_bg a _ ha]

/-- Witness for C7 at the repository's own test color `{0x15,0x16,0x17,0x18}`. -/
theorem blendOver_single_and_order_witness :
    blendOver [RGBA8.toGo ⟨0x15, 0x16, 0x17, 0x18⟩] = ⟨0x15, 0x16, 0x17, 0x18⟩ :=
  (blendOver_single_and_order ⟨0x15, 0x16, 0x17, 0x18⟩
    (by decide) (by decide) (by decide) (by decide)).1

theorem mod_emod_left (p : ℤ) (R : ℕ) : mod (p % (R : ℤ)) R = mod p R := by
  rcases Nat.eq_zero_or_pos R with h0 | hpos
  · subst h0
    simp [Int.emod_zero]
  · have hR : (0 : ℤ) < (R : ℤ) := by exact_mod_cast hpos
    rw [mod_eq_emod _ _ hR, mod_eq_emod _ _ hR, Int.emod_emod_of_dvd p dvd_rfl]

/-- C5: the per-layer contribution during a render pass: Tile samples at
`i mod R`, Crop samples at `i` below `R` and is fully transparent from `R`
on, Scale samples at `⌊i·R/ledCount⌋`; with `R = 3`, `ledCount = 12`: Crop
is transparent for every `i ≥ 3`, Tile at `i = 3` equals Tile at `i = 0`,
and Scale maps `0 ↦ 0`, `11 ↦ 2`. -/
theorem render_content_mapping (n i : ℕ) (l : Layer) (prev : Option GoColor) :
    (l.opt.contentMode = ContentTile →
      LedRing.contribSlot n i l prev =
        some (l.Pixel ((i : ℤ) % (l.opt.resolution : ℤ))).toGo) ∧
    (l.opt.contentMode = ContentCrop →
      LedRing.contribSlot n i l prev =
        if i < l.opt.resolution then some (l.Pixel i).toGo else some goTransparent) ∧
    (l.opt.contentMode = ContentScale →
      LedRing.contribSlot n i l prev =
        some (l.Pixel ((i * l.opt.resolution / n : ℕ))).toGo) ∧
    (l.opt.contentMode = ContentCrop → l.opt.resolution = 3 → 3 ≤ i →
      LedRing.contribSlot 12 i l prev = some goTransparent) ∧
    (l.opt.contentMode = ContentTile → l.opt.resolution = 3 →
      LedRing.contribSlot 12 3 l prev = LedRing.contribSlot 12 0 l prev) ∧
    scale 0 12 3 = 0 ∧ scale 11 12 3 = 2 := by
  refine ⟨?_, ?_, ?_, ?_, ?_, by decide, by decide⟩
  · intro hm
    simp only [LedRing.contribSlot, hm, ContentTile, if_pos]
    have h : l.Pixel ((i : ℤ) % (l.opt.resolution : ℤ)) = l.Pixel i := by
      unfold Layer.Pixel
      rw [mod_emod_left]
    rw [h]
  · intro hm
    simp only [LedRing.contribSlot, hm]
    norm_num [ContentTile, ContentCrop]
  · intro hm
    simp only [LedRing.contribSlot, hm, LedRing.contribSlot]
    norm_num [ContentTile, ContentCrop, ContentScale, scale]
  · intro hm hR hi
    simp only [LedRing.contribSlot, hm, hR]
    norm_num [ContentTile, ContentCrop]
    omega
  · intro hm hR
    simp only [LedRing.contribSlot, hm, ContentTile, if_pos]
    have h3 : l.Pixel ((3 : ℕ) : ℤ) = l.Pixel ((0 : ℕ) : ℤ) := by
      unfold Layer.Pixel
      rw [hR]
      norm_num [mod]
    rw [h3]

/-- Witness for C5: a concrete resolution-3 layer exercising every branch. -/
theorem render_content_mapping_witness :
    (LedRing.contribSlot 12 5
        ⟨List.replicate 3 goTransparent, 2/3, 0, 0, ⟨3, ContentCrop⟩,
          List.replicate 3 ⟨0, 0, 0, 0⟩⟩ none = some goTransparent) ∧
    scale 0 12 3 = 0 ∧ scale 11 12 3 = 2 := by
  have h := render_content_mapping 12 5
    ⟨List.replicate 3 goTransparent, 2/3, 0, 0, ⟨3, ContentCrop⟩,
      List.replicate 3 ⟨0, 0, 0, 0⟩⟩ none
  exact ⟨h.2.2.2.1 rfl rfl (by norm_num), h.2.2.2.2.2⟩

theorem slotsAt_length (r : LedRing) (i : ℕ) :
    (LedRing.slotsAt r i).length = r.layers.length := by
  induction i with
  | zero => simp [LedRing.slotsAt]
  | succ i ih => simp [LedRing.slotsAt, ih]

theorem mapM_id_eq_none_of_mem_none {α : Type} (xs : List (Option α)) (h : none ∈ xs) :
    xs.mapM id = none := by
  induction xs with
  | nil => cases h
  | cons x xs ih =>
    rw [List.mapM_cons]
    cases x with
    | none => rfl
    | some a =>
      have hx : none ∈ xs := by
        rcases List.mem_cons.mp h with h1 | h1
        · simp at h1
        · exact h1
      rw [ih hx]
      rfl

/-- C10: a layer whose content mode is none of the three declared constants
matches no `switch` case in `Render`: its `pixel` slot is never assigned, so
after any position it still holds what it held before that position; at the
start that is the nil color the scratch slice was created with, and every
composite that reads it is undefined (a nil dereference, `none`). -/
theorem render_dispatch_undeclared_mode (r : LedRing) (j : ℕ) (hj : j < r.layers.length)
    (hm : 3 ≤ (r.layers.get ⟨j, hj⟩).opt.contentMode) :
    (∀ i, (LedRing.slotsAt r (i + 1)).getD j none = (LedRing.slotsAt r i).getD j none) ∧
      (LedRing.slotsAt r 0).getD j none = none ∧
      (∀ i, (LedRing.slotsAt r i).getD j none = none) ∧
      (∀ i, LedRing.compositeAt r i = none) := by
  have hmode : ∀ (l : Layer), 3 ≤ l.opt.contentMode →
      ∀ i prev, LedRing.contribSlot r.ledCount i l prev = prev := by
    intro l hl i prev
    have h0 : l.opt.contentMode ≠ ContentTile := by unfold ContentTile; omega
    have h1 : l.opt.contentMode ≠ ContentCrop := by unfold ContentCrop; omega
    have h2 : l.opt.contentMode ≠ ContentScale := by unfold ContentScale; omega
    simp [LedRing.contribSlot, h0, h1, h2]
  have hstep : ∀ i, (LedRing.slotsAt r (i + 1)).getD j none =
      (LedRing.slotsAt r i).getD j none := by
    intro i
    have hlen : j < (LedRing.slotsAt r i).length := by rw [slotsAt_length]; exact hj
    have hlenz : j <
        (List.zipWith (fun l p => LedRing.contribSlot r.ledCount i l p) r.layers
          (LedRing.slotsAt r i)).length := by
      rw [List.length_zipWith, slotsAt_length]
      omega
    show (List.zipWith (fun l p => LedRing.contribSlot r.ledCount i l p) r.layers
        (LedRing.slotsAt r i)).getD j none = _
    rw [List.getD_eq_getElem _ _ hlenz, List.getElem_zipWith,
      List.getD_eq_getElem _ _ hlen]
    exact hmode (r.layers.get ⟨j, hj⟩) hm i _
  have hzero : (LedRing.slotsAt r 0).getD j none = none := by
    show (List.replicate r.layers.length (none : Option GoColor)).getD j none = none
    rw [List.getD_eq_getElem _ _ (by simpa using hj), List.getElem_replicate]
  have hall : ∀ i, (LedRing.slotsAt r i).getD j none = none := by
    intro i
    induction i with
    | zero => exact hzero
    | succ i ih => rw [hstep, ih]
  refine ⟨hstep, hzero, hall, ?_⟩
  intro i
  unfold LedRing.compositeAt
  have hmem : none ∈ LedRing.slotsAt r (i + 1) := by
    have hlen : j < (LedRing.slotsAt r (i + 1)).length := by rw [slotsAt_length]; exact hj
    have := hall (i + 1)
    rw [List.getD_eq_getElem _ _ hlen] at this
    rw [← this]
    exact List.getElem_mem hlen
  rw [mapM_id_eq_none_of_mem_none _ hmem]
  rfl

/-- Witness for C10: a one-layer ring whose layer declares content mode 7. -/
theorem render_dispatch_undeclared_mode_witness :
    (LedRing.slotsAt
        ⟨⟨[0], false⟩, [⟨[goTransparent], 2, 0, 0, ⟨1, 7⟩, [⟨0, 0, 0, 0⟩]⟩], 2, 0, 0, 1⟩
        0).getD 0 none = none ∧
      LedRing.compositeAt
        ⟨⟨[0], false⟩, [⟨[goTransparent], 2, 0, 0, ⟨1, 7⟩, [⟨0, 0, 0, 0⟩]⟩], 2, 0, 0, 1⟩
        0 = none := by
  have h := render_dispatch_undeclared_mode
    ⟨⟨[0], false⟩, [⟨[goTransparent], 2, 0, 0, ⟨1, 7⟩, [⟨0, 0, 0, 0⟩]⟩], 2, 0, 0, 1⟩
    0 (by simp) (by norm_num)
  exact ⟨h.2.1, h.2.2.2 0⟩

/-- A concrete resolution-3 layer: exactly the state `NewLayer` with
resolution 3 and the default Tile mode produces. -/
def layer3 : Layer :=
  ⟨[goTransparent, goTransparent, goTransparent], 2/3, 0, 0, ⟨3, ContentTile⟩,
    [⟨0, 0, 0, 0⟩, ⟨0, 0, 0, 0⟩, ⟨0, 0, 0, 0⟩]⟩

/-- Counterexample to C1: `SetPixel` indexes `l.pixels[i]` directly, so on a
resolution-3 layer the indices `3` and `-1` are runtime bounds failures,
not modulo-wrapped writes. -/
theorem setPixel_out_of_range_fails :
    Layer.SetPixel layer3 3 ⟨65535, 65535, 65535, 65535⟩ = none ∧
      Layer.SetPixel layer3 (-1) ⟨65535, 65535, 65535, 65535⟩ = none := by
  constructor <;> rfl

/-- C1 (amended): `SetPixel l i c` succeeds exactly when `0 ≤ i < len(pixels)`
(no modulo reduction on the write index — out of range is a bounds failure),
and a successful call stores `c` at index `i` itself; wrapping happens only
on reads (`pixelRaw`, `Pixel`), which reduce any index with `mod`. -/
theorem setPixel_in_range_only (l : Layer) (i : ℤ) (c : GoColor) :
    ((Layer.SetPixel l i c).isSome ↔ 0 ≤ i ∧ i.toNat < l.pixels.length) ∧
      (∀ l2, Layer.SetPixel l i c = some l2 → l2.pixels = l.pixels.set i.toNat c) := by
  constructor
  · unfold Layer.SetPixel
    by_cases h : 0 ≤ i ∧ i.toNat < l.pixels.length <;> simp [h]
  · intro l2 h2
    unfold Layer.SetPixel at h2
    by_cases h : 0 ≤ i ∧ i.toNat < l.pixels.length
    · rw [if_pos h] at h2
      cases h2
      rfl
    · rw [if_neg h] at h2
      cases h2

/-- Witness for C1 (amended): on the resolution-3 layer, index 1 is
accepted. -/
theorem setPixel_in_range_only_witness :
    (Layer.SetPixel layer3 1 ⟨65535, 65535, 65535, 65535⟩).isSome :=
  (setPixel_in_range_only layer3 1 ⟨65535, 65535, 65535, 65535⟩).1.mpr
    (by constructor <;> norm_num [layer3])

/-- C2: the decomposition `Render` applies to the global offset
(`rotInt = Floor(offset)`, `rotFloat = offset − rotInt` with
`offset = a/ledArc` as set by `Ring.Offset`) coincides with the layer's
`Rotate` decomposition of the same angle over the same arc — floor of
`a/arc` and its fractional part for both signs — and at exact negative
multiples of the arc even the ceil-rounded `ledOffset` field agrees with
the layer's floor decomposition. -/
theorem offset_decomposition_matches_layer (r : LedRing) (l : Layer) (a : ℚ)
    (harc : l.pixArc = r.ledArc) :
    ((Layer.Rotate l a).rotInt = ⌊(r.Offset a).offset⌋ ∧
      (Layer.Rotate l a).rotFloat = (r.Offset a).offset - ⌊(r.Offset a).offset⌋ ∧
      ⌊(r.Offset a).offset⌋ = ⌊a / r.ledArc⌋ ∧
      (r.Offset a).offset - ⌊(r.Offset a).offset⌋ = a / r.ledArc - ⌊a / r.ledArc⌋) ∧
    (∀ k : ℕ, r.ledArc ≠ 0 → a = -(k : ℚ) * r.ledArc →
      (r.Offset a).ledOffset = (Layer.Rotate l a).rotInt) := by
  have hrot : (Layer.Rotate l a).rotInt = ⌊a / l.pixArc⌋ ∧
      (Layer.Rotate l a).rotFloat = a / l.pixArc - ⌊a / l.pixArc⌋ := by
    constructor <;> simp [Layer.Rotate, Layer.update]
  have hoff : (r.Offset a).offset = a / r.ledArc := by simp [LedRing.Offset]
  refine ⟨⟨?_, ?_, ?_, ?_⟩, ?_⟩
  · rw [hrot.1, hoff, harc]
  · rw [hrot.2, hoff, harc]
  · rw [hoff]
  · rw [hoff]
  · intro k hne hk
    have hdiv : a / r.ledArc = -(k : ℚ) := by
      rw [hk, mul_div_assoc, div_self hne, mul_one]
    have hfloor : ⌊a / r.ledArc⌋ = -(k : ℤ) := by
      rw [hdiv]
      exact Int.floor_intCast _
    have hceil : ⌈a / r.ledArc⌉ = -(k : ℤ) := by
      rw [hdiv]
      exact Int.ceil_intCast _
    rw [hrot.1, harc]
    unfold LedRing.Offset
    by_cases hneg : a < 0 <;> simp [hneg, hceil, hfloor]

/-- A concrete 12-LED ring (ledArc `2π/12`, i.e. `1/6` in π units). -/
def ringW : LedRing := ⟨⟨List.replicate 12 0, false⟩, [], 1/6, 0, 0, 12⟩

/-- A layer sharing `ringW`'s arc. -/
def layerW : Layer := ⟨[goTransparent], 1/6, 0, 0, ⟨1, ContentTile⟩, [⟨0, 0, 0, 0⟩]⟩

/-- Witness for C2 at the angle `-2·(2π/12)`, an exact negative multiple of
the arc. -/
theorem offset_decomposition_matches_layer_witness :
    (Layer.Rotate layerW (-(2 : ℚ) * (1/6))).rotInt =
        ⌊(ringW.Offset (-(2 : ℚ) * (1/6))).offset⌋ ∧
      (ringW.Offset (-(2 : ℚ) * (1/6))).ledOffset =
        (Layer.Rotate layerW (-(2 : ℚ) * (1/6))).rotInt := by
  have h := offset_decomposition_matches_layer ringW layerW (-(2 : ℚ) * (1/6)) rfl
  exact ⟨h.1.1, h.2 2 (by norm_num [ringW]) (by norm_num [ringW])⟩

/-- A two-LED ring whose device rejects every flush. -/
def failRing : LedRing := ⟨⟨[7, 7], true⟩, [], 1, 0, 0, 2⟩

/-- Counterexample to C3: on a ring whose device rejects the flush,
`TurnOff` still surfaces no error to its caller (its Go signature returns
nothing and the statement `r.device.Render()` discards the result), even
though re-running the flush it performed on the zeroed buffer reports the
I/O failure; `Close` likewise surfaces nothing. -/
theorem turnOff_discards_flush_error :
    deviceRender ((LedRing.TurnOff failRing).1).device = some DeviceError.io ∧
      (LedRing.TurnOff failRing).2 = none ∧
      (LedRing.Close failRing).2 = none := by
  refine ⟨rfl, rfl, rfl⟩

/-- C3 (amended): `Render` does propagate the device's flush error to its
caller — the error component of its result is the device error exactly when
the device fails — but `TurnOff` (which does write fully-off values to
every position) and `Close` surface no error at all: their Go signatures
return nothing and the flush result is discarded. -/
theorem render_propagates_error_turnoff_does_not (r : LedRing) :
    (∀ res, LedRing.Render r = some res →
      res.2 = if r.device.failFlush then some DeviceError.io else none) ∧
      (LedRing.TurnOff r).2 = none ∧
      (LedRing.Close r).2 = none ∧
      (LedRing.TurnOff r).1.device.leds = List.replicate r.device.leds.length 0 := by
  refine ⟨?_, rfl, rfl, ?_⟩
  · intro res hres
    unfold LedRing.Render at hres
    split at hres
    · cases hres
    · simp only [Option.some.injEq] at hres
      rw [← hres]
      simp [deviceRender]
  · show (r.device.leds.map fun _ => 0) = _
    simp [List.map_const']

/-- Witness for C3 (amended): on the failing two-LED ring (no layers, so
compositing succeeds), `Render` reports the device error while `TurnOff`
reports nothing. -/
theorem render_propagates_error_turnoff_does_not_witness :
    (LedRing.Render failRing).map Prod.snd = some (some DeviceError.io) ∧
      (LedRing.TurnOff failRing).2 = none := by
  obtain ⟨res, hres⟩ : ∃ res, LedRing.Render failRing = some res := ⟨_, rfl⟩
  have h := (render_propagates_error_turnoff_does_not failRing).1 res hres
  refine ⟨?_, (render_propagates_error_turnoff_does_not failRing).2.1⟩
  rw [hres]
  simp [h, failRing]

/-- The sampled-buffer invariant of the spec: every cached entry below the
resolution is the lerp of the two wrapped, shift-adjusted source pixels by
the fractional rotation weight. -/
def sampledInvariant (l : Layer) : Prop :=
  ∀ i : ℕ, i < l.opt.resolution →
    l.buffer.getD i ⟨0, 0, 0, 0⟩ =
      blendLerp (l.pixelRaw ((i : ℤ) + l.rotInt)) (l.pixelRaw ((i : ℤ) + l.rotInt + 1))
        l.rotFloat

theorem update_buffer_getD (l : Layer) (i : ℕ) (hi : i < l.pixels.length) :
    (Layer.update l).buffer.getD i ⟨0, 0, 0, 0⟩ = l.pixelRotated i := by
  unfold Layer.update
  have hlen : i <
      ((List.range l.pixels.length).map fun (j : ℕ) => l.pixelRotated (j : ℤ)).length := by
    simpa using hi
  rw [List.getD_eq_getElem _ _ hlen, List.getElem_map, List.getElem_range]

theorem update_sampledInvariant (l : Layer) (h : l.opt.resolution ≤ l.pixels.length) :
    sampledInvariant (Layer.update l) := by
  intro i hi
  have hi2 : i < l.pixels.length := lt_of_lt_of_le hi h
  rw [update_buffer_getD l i hi2]
  rfl

/-- C4: after `NewLayer`, `SetAll`, a successful `SetPixel`, and `Rotate`
(each of which ends in a synchronous `update` before returning), every
sampled-buffer entry below the resolution equals
`blendLerp(pixels[mod(i+rotInt)], pixels[mod(i+rotInt+1)], rotFloat)`. -/
theorem sampled_buffer_invariant :
    (∀ opt l, NewLayer opt = some l → sampledInvariant l) ∧
      (∀ (l : Layer) c, l.opt.resolution ≤ l.pixels.length →
        sampledInvariant (l.SetAll c)) ∧
      (∀ (l : Layer) i c l2, l.opt.resolution ≤ l.pixels.length →
        Layer.SetPixel l i c = some l2 → sampledInvariant l2) ∧
      (∀ (l : Layer) a, l.opt.resolution ≤ l.pixels.length →
        sampledInvariant (l.Rotate a)) := by
  refine ⟨?_, ?_, ?_, ?_⟩
  · intro opt l hnew
    unfold NewLayer at hnew
    split at hnew
    · cases hnew
    · simp only [Option.some.injEq] at hnew
      rw [← hnew]
      apply update_sampledInvariant
      simp [Layer.SetAll, Layer.update]
  · intro l c h
    apply update_sampledInvariant
    simpa using h
  · intro l i c l2 h hset
    unfold Layer.SetPixel at hset
    split at hset
    · simp only [Option.some.injEq] at hset
      rw [← hset]
      apply update_sampledInvariant
      simpa using h
    · cases hset
  · intro l a h
    apply update_sampledInvariant
    simpa using h

/-- Witness for C4: the invariant holds after `SetAll` on the concrete
resolution-3 layer. -/
theorem sampled_buffer_invariant_witness :
    sampledInvariant (layer3.SetAll ⟨65535, 0, 0, 65535⟩) :=
  sampled_buffer_invariant.2.1 layer3 ⟨65535, 0, 0, 65535⟩ (by norm_num [layer3])

theorem mod_add_res (p : ℤ) (R : ℕ) (hR : 0 < R) : mod (p + (R : ℤ)) R = mod p R := by
  have hRz : (0 : ℤ) < (R : ℤ) := by exact_mod_cast hR
  rw [mod_eq_emod _ _ hRz, mod_eq_emod _ _ hRz]
  have h := Int.add_mul_emod_self_left p (R : ℤ) 1
  rw [mul_one] at h
  exact h

/-- C9: in exact arithmetic, rotating a layer by a full turn (`2π`, i.e. the
rational `2` in π units) produces exactly the sampled buffer of the
zero-rotation state: `rotArc = 2π/(2π/R) = R`, so the integer shift is the
full resolution, which every wrapped read absorbs, and the blend weight is
`0` in both states. -/
theorem rotate_full_turn (l : Layer) (hres : 0 < l.opt.resolution)
    (harc : l.pixArc = 2 / (l.opt.resolution : ℚ)) :
    (l.Rotate 2).buffer = (l.Rotate 0).buffer ∧
      (l.Rotate 0).rotInt = 0 ∧ (l.Rotate 0).rotFloat = 0 := by
  have hResQ : ((l.opt.resolution : ℚ)) ≠ 0 := by
    exact_mod_cast Nat.pos_iff_ne_zero.mp hres
  have harc2 : (2 : ℚ) / l.pixArc = (l.opt.resolution : ℚ) := by
    rw [harc]
    field_simp
  have hfloor2 : ⌊(2 : ℚ) / l.pixArc⌋ = (l.opt.resolution : ℤ) := by
    rw [harc2]
    exact_mod_cast Int.floor_intCast (l.opt.resolution : ℤ)
  have hfloor0 : ⌊(0 : ℚ) / l.pixArc⌋ = 0 := by
    simp
  have hfloorR : ⌊((l.opt.resolution : ℕ) : ℚ)⌋ = (l.opt.resolution : ℤ) :=
    Int.floor_natCast _
  refine ⟨?_, ?_, ?_⟩
  · simp only [Layer.Rotate, Layer.update]
    rw [hfloor2, hfloor0, harc2]
    simp only [hfloorR, Int.cast_natCast, sub_self, zero_div, Int.cast_zero, sub_zero,
      add_zero]
    apply List.map_congr_left
    intro i _
    unfold Layer.pixelRotated Layer.pixelRaw
    have h1 : mod ((i : ℤ) + (l.opt.resolution : ℤ)) l.opt.resolution =
        mod (i : ℤ) l.opt.resolution := mod_add_res _ _ hres
    have h2 : mod ((i : ℤ) + (l.opt.resolution : ℤ) + 1) l.opt.resolution =
        mod ((i : ℤ) + 1) l.opt.resolution := by
      have he : (i : ℤ) + (l.opt.resolution : ℤ) + 1 = (i : ℤ) + 1 + (l.opt.resolution : ℤ) := by
        ring
      rw [he, mod_add_res _ _ hres]
    dsimp only
    simp only [add_zero]
    rw [h1, h2]
  · simp [Layer.Rotate, Layer.update, hfloor0]
  · simp [Layer.Rotate, Layer.update, hfloor0]

/-- Witness for C9 on the concrete resolution-3 layer. -/
theorem rotate_full_turn_witness :
    (layer3.Rotate 2).buffer = (layer3.Rotate 0).buffer :=
  (rotate_full_turn layer3 (by norm_num [layer3]) (by norm_num [layer3])).1

/-! ### C8: `blendLerp` endpoints and monotonicity -/

theorem chLerp_zero (a b : ℕ) (ha : a < 65536) : chLerp a b 0 = a / 256 := by
  unfold chLerp u32sub U32MOD
  simp only [Nat.mul_zero, Nat.zero_mod, Nat.zero_div, Nat.shiftRight_eq_div_pow]
  norm_num
  omega

/-- Closed form of the lerp channel for `b ≤ a`: no `uint32` wraparound
occurs and the result is `(a - (a-b)·l/65535) >> 8`. -/
theorem chLerp_of_ge (a b l : ℕ) (hba : b ≤ a) (ha : a < 65536) (hl : l ≤ 65535) :
    chLerp a b l = (a - (a - b) * l / 65535) / 256 := by
  unfold chLerp u32sub U32MOD
  have hb : b % 4294967296 = b := Nat.mod_eq_of_lt (by omega)
  rw [hb]
  have h1 : (a + (4294967296 - b)) % 4294967296 = a - b := by omega
  rw [h1]
  have hdl : (a - b) * l ≤ 65535 * 65535 := Nat.mul_le_mul (by omega) hl
  have h2 : (a - b) * l % 4294967296 = (a - b) * l := Nat.mod_eq_of_lt (by omega)
  rw [h2]
  have hq : (a - b) * l / 65535 ≤ a - b := by
    have h3 := Nat.div_le_div_right (c := 65535) (Nat.mul_le_mul_left (a - b) hl)
    calc (a - b) * l / 65535 ≤ (a - b) * 65535 / 65535 := h3
    _ = a - b := by omega
  have h4 : ((a - b) * l / 65535) % 4294967296 = (a - b) * l / 65535 :=
    Nat.mod_eq_of_lt (by omega)
  rw [h4]
  have h5 : (a + (4294967296 - (a - b) * l / 65535)) % 4294967296 =
      a - (a - b) * l / 65535 := by omega
  rw [h5, Nat.shiftRight_eq_div_pow]
  norm_num
  omega

/-- Closed form of the lerp channel for `a < b`, `(b-a)·l ≥ 2`: both `uint32`
subtractions wrap and the two wraps cancel to `(a + ((b-a)·l - 2)/65535) >> 8`. -/
theorem chLerp_of_lt (a b l : ℕ) (hab : a < b) (hb : b < 65536)
    (hl : l ≤ 65535) (hel : 2 ≤ (b - a) * l) :
    chLerp a b l = (a + ((b - a) * l - 2) / 65535) / 256 := by
  unfold chLerp u32sub U32MOD
  have hbm : b % 4294967296 = b := Nat.mod_eq_of_lt (by omega)
  rw [hbm]
  have h1 : (a + (4294967296 - b)) % 4294967296 = 4294967296 - (b - a) := by omega
  rw [h1]
  have hsub : (4294967296 - (b - a)) * l = 4294967296 * l - (b - a) * l :=
    Nat.sub_mul 4294967296 (b - a) l
  rw [hsub]
  have hpe : (b - a) * l ≤ (b - a) * 65535 := Nat.mul_le_mul_left (b - a) hl
  have hpb : (b - a) * l ≤ 65535 * 65535 := Nat.mul_le_mul (by omega) hl
  have hpl : (b - a) * l ≤ 65535 * l := Nat.mul_le_mul_right l (by omega)
  generalize hp : (b - a) * l = p at hel hpe hpb hpl
  have h2 : (4294967296 * l - p) % 4294967296 = 4294967296 - p := by
    have hcl : 65535 * l ≤ 4294967296 * l := Nat.mul_le_mul_right l (by omega)
    omega
  rw [h2]
  have hKid := Nat.div_add_mod (p - 2) 65535
  have hKlt : (p - 2) % 65535 < 65535 := Nat.mod_lt _ (by omega)
  have hqid := Nat.div_add_mod (4294967296 - p) 65535
  have hqlt : (4294967296 - p) % 65535 < 65535 := Nat.mod_lt _ (by omega)
  have hq : (4294967296 - p) / 65535 = 65536 - (p - 2) / 65535 := by omega
  rw [hq]
  have hKsmall : (p - 2) / 65535 ≤ (b - a) - 1 := by omega
  have hq_mod : (65536 - (p - 2) / 65535) % 4294967296 = 65536 - (p - 2) / 65535 :=
    Nat.mod_eq_of_lt (by omega)
  rw [hq_mod]
  have hs : (a + (4294967296 - (65536 - (p - 2) / 65535))) % 4294967296 =
      4294901760 + (a + (p - 2) / 65535) := by omega
  rw [hs, Nat.shiftRight_eq_div_pow]
  norm_num
  have hdiv : (4294901760 + (a + (p - 2) / 65535)) / 256 =
      16776960 + (a + (p - 2) / 65535) / 256 := by
    have h16 : (4294901760 : ℕ) = 256 * 16776960 := by norm_num
    rw [h16, Nat.mul_add_div (by norm_num)]
  rw [hdiv]
  have hT : (a + (p - 2) / 65535) / 256 < 256 := by omega
  omega

theorem chLerp8_zero (a8 b8 : ℕ) (ha : a8 < 256) :
    chLerp (a8 * 257) (b8 * 257) 0 = a8 := by
  rw [chLerp_zero _ _ (by omega)]
  omega

theorem chLerp8_one (a8 b8 : ℕ) (ha : a8 < 256) (hb : b8 < 256) :
    chLerp (a8 * 257) (b8 * 257) 65535 = b8 := by
  rcases le_or_lt b8 a8 with h | h
  · rw [chLerp_of_ge _ _ _ (by omega) (by omega) (by omega)]
    have hc : (a8 * 257 - b8 * 257) * 65535 / 65535 = a8 * 257 - b8 * 257 := by omega
    rw [hc]
    omega
  · rw [chLerp_of_lt _ _ _ (by omega) (by omega) (by omega) (by omega)]
    have hK : ((b8 * 257 - a8 * 257) * 65535 - 2) / 65535 = b8 * 257 - a8 * 257 - 1 := by
      have h1 : 1 ≤ b8 * 257 - a8 * 257 := by omega
      have h2 := Nat.div_add_mod ((b8 * 257 - a8 * 257) * 65535 - 2) 65535
      have h3 : ((b8 * 257 - a8 * 257) * 65535 - 2) % 65535 < 65535 :=
        Nat.mod_lt _ (by omega)
      have h4 : (b8 * 257 - a8 * 257) * 65535 - 2 =
          ((b8 * 257 - a8 * 257) - 1) * 65535 + 65533 := by
        rw [Nat.sub_mul]
        omega
      omega
    rw [hK]
    omega

theorem chLerp8_mono (a8 b8 l1 l2 : ℕ) (ha : a8 < 256) (hb : b8 < 256)
    (h12 : l1 ≤ l2) (hl2 : l2 ≤ 65535) :
    (a8 ≤ b8 → chLerp (a8 * 257) (b8 * 257) l1 ≤ chLerp (a8 * 257) (b8 * 257) l2) ∧
      (b8 ≤ a8 → chLerp (a8 * 257) (b8 * 257) l2 ≤ chLerp (a8 * 257) (b8 * 257) l1) := by
  have hl1 : l1 ≤ 65535 := le_trans h12 hl2
  constructor
  · intro hdir
    rcases Nat.eq_or_lt_of_le hdir with heq | hlt
    · subst heq
      rw [chLerp_of_ge _ _ _ (le_refl _) (by omega) hl1,
        chLerp_of_ge _ _ _ (le_refl _) (by omega) hl2]
      simp
    · have habm : a8 * 257 < b8 * 257 := by omega
      have he : 257 ≤ b8 * 257 - a8 * 257 := by omega
      rcases Nat.eq_zero_or_pos l2 with h20 | h2pos
      · have h10 : l1 = 0 := by omega
        rw [h10, h20]
      · rcases Nat.eq_zero_or_pos l1 with h10 | h1pos
        · rw [h10, chLerp_zero _ _ (by omega),
            chLerp_of_lt _ _ _ habm (by omega) hl2 (by nlinarith)]
          exact Nat.div_le_div_right (Nat.le_add_right _ _)
        · rw [chLerp_of_lt _ _ _ habm (by omega) hl1 (by nlinarith),
            chLerp_of_lt _ _ _ habm (by omega) hl2 (by nlinarith)]
          apply Nat.div_le_div_right
          apply Nat.add_le_add_left
          apply Nat.div_le_div_right
          have := Nat.mul_le_mul_left (b8 * 257 - a8 * 257) h12
          omega
  · intro hdir
    rw [chLerp_of_ge _ _ _ (by omega) (by omega) hl1,
      chLerp_of_ge _ _ _ (by omega) (by omega) hl2]
    apply Nat.div_le_div_right
    apply Nat.sub_le_sub_left
    apply Nat.div_le_div_right
    exact Nat.mul_le_mul_left _ h12

theorem lerpAmount_mono {t1 t2 : ℚ} (h : t1 ≤ t2) : lerpAmount t1 ≤ lerpAmount t2 := by
  rw [lerpAmount_eq_floor, lerpAmount_eq_floor]
  have hm : (⌊t1 * 65535⌋ : ℤ) ≤ ⌊t2 * 65535⌋ :=
    Int.floor_mono (mul_le_mul_of_nonneg_right h (by norm_num))
  exact Int.toNat_le_toNat hm

theorem lerpAmount_le_of_le_one {t : ℚ} (h : t ≤ 1) : lerpAmount t ≤ 65535 := by
  rw [lerpAmount_eq_floor]
  have hm : (⌊t * 65535⌋ : ℤ) ≤ ⌊(65535 : ℚ)⌋ := by
    apply Int.floor_mono
    nlinarith
  have h65 : (⌊(65535 : ℚ)⌋ : ℤ) = 65535 := by norm_num
  rw [h65] at hm
  omega

/-- The red-channel trace of `blendLerp` between the 16-bit colors
`(0,0,0,0)` and `(1,1,1,1)` (e.g. `color.RGBA64` values 0 and 1). -/
def lerpTrace (t : ℚ) : ℕ := (blendLerp ⟨0, 0, 0, 0⟩ ⟨1, 1, 1, 1⟩ t).r

/-- Counterexample to C8: between two colors whose 16-bit channels are `0`
and `1`, the channel output at `t = 1/65535` is `255` — higher than both
endpoints `0` — because `(a-b)*l` wraps in `uint32`; `blendLerp` is neither
monotone nor antitone on `[0,1]` there. -/
theorem blendLerp_not_monotone_16bit :
    lerpTrace 0 = 0 ∧ lerpTrace (1/65535) = 255 ∧ lerpTrace 1 = 0 ∧
      ¬ MonotoneOn lerpTrace (Set.Icc (0 : ℚ) 1) ∧
      ¬ AntitoneOn lerpTrace (Set.Icc (0 : ℚ) 1) := by
  have h0 : lerpTrace 0 = 0 := by
    unfold lerpTrace blendLerp
    rw [lerpAmount_zero]
    decide
  have hg : lerpTrace (1/65535) = 255 := by
    unfold lerpTrace blendLerp
    have hfl : (⌊(1/65535 : ℚ) * 65535⌋ : ℤ) = 1 := by norm_num
    have hl : lerpAmount (1/65535) = 1 := by
      rw [lerpAmount_eq_floor, hfl]
      rfl
    rw [hl]
    decide
  have h1 : lerpTrace 1 = 0 := by
    unfold lerpTrace blendLerp
    rw [lerpAmount_one]
    decide
  have hmem0 : (0 : ℚ) ∈ Set.Icc (0 : ℚ) 1 := by constructor <;> norm_num
  have hmemg : (1/65535 : ℚ) ∈ Set.Icc (0 : ℚ) 1 := by constructor <;> norm_num
  have hmem1 : (1 : ℚ) ∈ Set.Icc (0 : ℚ) 1 := by constructor <;> norm_num
  refine ⟨h0, hg, h1, ?_, ?_⟩
  · intro hmono
    have hx := hmono hmemg hmem1 (by norm_num)
    rw [hg, h1] at hx
    omega
  · intro hanti
    have hx := hanti hmem0 hmemg (by norm_num)
    rw [h0, hg] at hx
    omega

/-- C8 (amended): at the 8-bit depth the endpoints are exact —
`blendLerp(a, b, 0) = a` and `blendLerp(a, b, 1) = b` — and each channel of
`blendLerp(a, b, t)` is monotone in `t` on `[0,1]` (nondecreasing toward
`b`'s channel, nonincreasing when `b`'s channel is below `a`'s) for colors
whose 16-bit expansions are 8-bit-representable (`v·0x101`); general 16-bit
channel pairs can break monotonicity (see the wraparound counterexample). -/
theorem blendLerp_endpoints_and_monotone_8bit (a b : RGBA8)
    (har : a.r < 256) (hag : a.g < 256) (habl : a.b < 256) (haa : a.a < 256)
    (hbr : b.r < 256) (hbg : b.g < 256) (hbbl : b.b < 256) (hba : b.a < 256)
    (t1 t2 : ℚ) (h12 : t1 ≤ t2) (ht2 : t2 ≤ 1) :
    blendLerp a.toGo b.toGo 0 = a ∧
      blendLerp a.toGo b.toGo 1 = b ∧
      ((a.r ≤ b.r → (blendLerp a.toGo b.toGo t1).r ≤ (blendLerp a.toGo b.toGo t2).r) ∧
        (b.r ≤ a.r → (blendLerp a.toGo b.toGo t2).r ≤ (blendLerp a.toGo b.toGo t1).r)) ∧
      ((a.g ≤ b.g → (blendLerp a.toGo b.toGo t1).g ≤ (blendLerp a.toGo b.toGo t2).g) ∧
        (b.g ≤ a.g → (blendLerp a.toGo b.toGo t2).g ≤ (blendLerp a.toGo b.toGo t1).g)) ∧
      ((a.b ≤ b.b → (blendLerp a.toGo b.toGo t1).b ≤ (blendLerp a.toGo b.toGo t2).b) ∧
        (b.b ≤ a.b → (blendLerp a.toGo b.toGo t2).b ≤ (blendLerp a.toGo b.toGo t1).b)) ∧
      ((a.a ≤ b.a → (blendLerp a.toGo b.toGo t1).a ≤ (blendLerp a.toGo b.toGo t2).a) ∧
        (b.a ≤ a.a → (blendLerp a.toGo b.toGo t2).a ≤ (blendLerp a.toGo b.toGo t1).a)) := by
  have hl12 : lerpAmount t1 ≤ lerpAmount t2 := lerpAmount_mono h12
  have hl2 : lerpAmount t2 ≤ 65535 := lerpAmount_le_of_le_one ht2
  obtain ⟨ar, ag, ab2, aa⟩ := a
  obtain ⟨br, bg, bb2, ba⟩ := b
  simp only at har hag habl haa hbr hbg hbbl hba
  unfold blendLerp blendLerp16 RGBA8.toGo
  dsimp only
  rw [lerpAmount_zero, lerpAmount_one]
  refine ⟨?_, ?_, ?_, ?_, ?_, ?_⟩
  · rw [chLerp8_zero _ _ har, chLerp8_zero _ _ hag, chLerp8_zero _ _ habl,
      chLerp8_zero _ _ haa]
  · rw [chLerp8_one _ _ har hbr, chLerp8_one _ _ hag hbg, chLerp8_one _ _ habl hbbl,
      chLerp8_one _ _ haa hba]
  · exact chLerp8_mono ar br _ _ har hbr hl12 hl2
  · exact chLerp8_mono ag bg _ _ hag hbg hl12 hl2
  · exact chLerp8_mono ab2 bb2 _ _ habl hbbl hl12 hl2
  · exact chLerp8_mono aa ba _ _ haa hba hl12 hl2

/-- Witness for C8 (amended) at the black/white 8-bit pair and `t` from `0`
to `1/2`. -/
theorem blendLerp_endpoints_and_monotone_8bit_witness :
    blendLerp (RGBA8.toGo ⟨0, 0, 0, 0⟩) (RGBA8.toGo ⟨255, 255, 255, 255⟩) 0 =
        ⟨0, 0, 0, 0⟩ ∧
      blendLerp (RGBA8.toGo ⟨0, 0, 0, 0⟩) (RGBA8.toGo ⟨255, 255, 255, 255⟩) 1 =
        ⟨255, 255, 255, 255⟩ ∧
      (blendLerp (RGBA8.toGo ⟨0, 0, 0, 0⟩) (RGBA8.toGo ⟨255, 255, 255, 255⟩) 0).r ≤
        (blendLerp (RGBA8.toGo ⟨0, 0, 0, 0⟩) (RGBA8.toGo ⟨255, 255, 255, 255⟩) (1/2)).r := by
  have h := blendLerp_endpoints_and_monotone_8bit ⟨0, 0, 0, 0⟩ ⟨255, 255, 255, 255⟩
    (by decide) (by decide) (by decide) (by decide)
    (by decide) (by decide) (by decide) (by decide)
    0 (1/2) (by norm_num) (by norm_num)
  exact ⟨h.1, h.2.1, h.2.2.1.1 (by decide)⟩
